import Mathlib

/-!
Verification of the `nyarray` crate: a fixed-capacity inline array
(`nyarray::array::Array<N, T>`, file `src/array.rs`) and a hybrid
inline/heap vector (`nyarray::switch::SwitchVec<N, T>`, file
`src/switch.rs`).

The shallow embedding models the live region `storage[0..len]` of the
Rust `Array` as a Lean `List T` (the content of `as_slice()`); the
`MaybeUninit` tail is never observable and is not represented.  Heap
`Vec<T>` content is likewise a `List T`.  Fallible heap allocation
(`Vec::try_reserve_exact` / `Vec::try_reserve`) is modelled by explicit
Boolean oracle parameters: `true` means the allocation attempt succeeds,
`false` means it fails.  Rust panics are modelled as `Except String`
results carrying the panic message where the panic is part of a claim,
and as state-preserving no-ops inside sequence steps (a panic aborts the
sequence, so nothing after it is observable).
-/

namespace Nyarray

/-- Live content of `nyarray::array::Array<N, T>` (src/array.rs line 48):
`data` is the list of initialized elements `storage[0..len]`, exactly what
`as_slice()` exposes.  `len` is `data.length`; the capacity is `N`. -/
structure Array (N : Nat) (T : Type) where
  data : List T
deriving DecidableEq, Repr

namespace Array

variable {N : Nat} {T : Type}

/-- `Array::new` (src/array.rs line 63): empty array, `len = 0`. -/
def new (N : Nat) (T : Type) : Array N T := ⟨[]⟩

/-- `Array::capacity` (src/array.rs line 220): always returns `N`. -/
def capacity (_ : Array N T) : Nat := N

/-- `Array::len` (src/array.rs line 234). -/
def len (a : Array N T) : Nat := a.data.length

/-- `Array::is_empty` (src/array.rs line 285): `self.len() == 0`. -/
def is_empty (a : Array N T) : Bool := a.len == 0

/-- `Array::as_slice` (src/array.rs line 303): the live region. -/
def as_slice (a : Array N T) : List T := a.data

/-- `Array::from_parts` (src/array.rs line 125): copies an `M`-element
initialized array in and sets `len = M`; the `assert!(M <= N)` panic is
modelled as `none`. -/
def from_parts (N : Nat) (buf : List T) : Option (Array N T) :=
  if buf.length ≤ N then some ⟨buf⟩ else none

/-- `Array::clear` (src/array.rs line 362): drops the live region and
sets `len = 0`. -/
def clear (_ : Array N T) : Array N T := ⟨[]⟩

/-- `Array::push_checked` (src/array.rs line 421): `Err(value)` when
`len == capacity`, otherwise `push_unchecked` writes at slot `len` and
increments `len`. -/
def push_checked (a : Array N T) (value : T) : Except T (Array N T) :=
  if a.len = a.capacity then .error value
  else .ok ⟨a.data ++ [value]⟩

/-- `Array::push` (src/array.rs line 398): panics with
"push exceeds capacity" when `push_checked` fails. -/
def push (a : Array N T) (value : T) : Except String (Array N T) :=
  match a.push_checked value with
  | .ok a2 => .ok a2
  | .error _ => .error "push exceeds capacity"

/-- `Array::pop` (src/array.rs line 491): `None` on empty, otherwise
`pop_unchecked` decrements `len` and reads the old tail slot. -/
def pop (a : Array N T) : Option T × Array N T :=
  if a.is_empty then (none, a)
  else (a.data.getLast?, ⟨a.data.dropLast⟩)

/-- `Array::insert_unchecked` (src/array.rs line 657): shifts
`[index, len)` one slot toward the tail (`ptr::copy`), writes `element`
at `index`, `len += 1`.  Specified only under the documented
preconditions `index <= len` and `len < N`. -/
def insert_unchecked (a : Array N T) (index : Nat) (element : T) : Array N T :=
  ⟨a.data.take index ++ element :: a.data.drop index⟩

/-- `Array::insert_checked` (src/array.rs line 609): `Err(element)` when
`index > len` or `len + 1 > capacity`, else `insert_unchecked`. -/
def insert_checked (a : Array N T) (index : Nat) (element : T) : Except T (Array N T) :=
  if index > a.len then .error element
  else if a.len + 1 > a.capacity then .error element
  else .ok (a.insert_unchecked index element)

/-- `Array::insert` (src/array.rs line 576): on `insert_checked` failure
panics with "index out of bounds" when `index > len`, otherwise with
"insert exceeds capacity". -/
def insert (a : Array N T) (index : Nat) (element : T) : Except String (Array N T) :=
  match a.insert_checked index element with
  | .ok a2 => .ok a2
  | .error _ =>
    if index > a.len then .error "index out of bounds"
    else .error "insert exceeds capacity"

/-- `Array::swap_insert_unchecked` (src/array.rs line 786): writes
`element` into the fresh slot `len`, swaps slots `index` and `len`,
`len += 1`.  Specified only under `index <= len` and `len < N`. -/
def swap_insert_unchecked (a : Array N T) (index : Nat) (element : T) : Array N T :=
  match a.data[index]? with
  | some old => ⟨a.data.set index element ++ [old]⟩
  | none => ⟨a.data ++ [element]⟩

/-- `Array::swap_insert_checked` (src/array.rs line 738): same guards as
`insert_checked`, then `swap_insert_unchecked`. -/
def swap_insert_checked (a : Array N T) (index : Nat) (element : T) : Except T (Array N T) :=
  if index > a.len then .error element
  else if a.len + 1 > a.capacity then .error element
  else .ok (a.swap_insert_unchecked index element)

/-- `Array::remove_unchecked` (src/array.rs line 906): reads the value at
`index`, shifts `[index+1, len)` one slot toward the head, `len -= 1`.
The first component models the `ptr::read`; it is `some` whenever the
documented precondition `index < len` holds. -/
def remove_unchecked (a : Array N T) (index : Nat) : Option T × Array N T :=
  (a.data[index]?, ⟨a.data.take index ++ a.data.drop (index + 1)⟩)

/-- `Array::remove_checked` (src/array.rs line 865): `None` and no state
change when `index >= len`, else `remove_unchecked`. -/
def remove_checked (a : Array N T) (index : Nat) : Option T × Array N T :=
  if index ≥ a.len then (none, a)
  else a.remove_unchecked index

/-- `Array::swap_remove_unchecked` (src/array.rs line 1027): reads the
value at `index`, copies the tail slot `len - 1` over slot `index`,
`len -= 1`.  The match is exhaustive exactly when the documented
precondition `index < len` holds; otherwise (UB in Rust) the state is
returned unchanged. -/
def swap_remove_unchecked (a : Array N T) (index : Nat) : Option T × Array N T :=
  match a.data[index]?, a.data[a.len - 1]? with
  | some old, some last => (some old, ⟨(a.data.set index last).dropLast⟩)
  | _, _ => (none, a)

/-- `Array::swap_remove_checked` (src/array.rs line 984): `None` and no
state change when `index >= len`, else `swap_remove_unchecked`. -/
def swap_remove_checked (a : Array N T) (index : Nat) : Option T × Array N T :=
  if index ≥ a.len then (none, a)
  else a.swap_remove_unchecked index

/-- `Extend::extend` for `Array` (src/array.rs line 1114): pushes each
element with `push_checked`, stopping at the first failure. -/
def extend : Array N T → List T → Array N T
  | a, [] => a
  | a, x :: xs =>
    match a.push_checked x with
    | .ok a2 => extend a2 xs
    | .error _ => a

/-- `FromIterator::from_iter` for `Array` (src/array.rs line 1222):
`extend` starting from `Array::new`. -/
def from_iter (N : Nat) (T : Type) (l : List T) : Array N T :=
  (new N T).extend l

end Array

/-- `nyarray::switch::Inner<N, T>` (src/switch.rs line 58): the active
representation, either the inline `Array` or a heap `Vec` (content
modelled as a list). -/
inductive Inner (N : Nat) (T : Type) where
  | stack : Array N T → Inner N T
  | heap : List T → Inner N T
deriving DecidableEq

/-- `nyarray::switch::SwitchVec<N, T>` (src/switch.rs line 65). -/
structure SwitchVec (N : Nat) (T : Type) where
  inner : Inner N T
deriving DecidableEq

namespace SwitchVec

variable {N : Nat} {T : Type}

/-- `SwitchVec::new` (src/switch.rs line 80): starts inline. -/
def new (N : Nat) (T : Type) : SwitchVec N T := ⟨.stack (Array.new N T)⟩

/-- `SwitchVec::is_heap` (src/switch.rs line 235). -/
def is_heap (s : SwitchVec N T) : Bool :=
  match s.inner with
  | .stack _ => false
  | .heap _ => true

/-- `SwitchVec::len` (src/switch.rs line 195). -/
def len (s : SwitchVec N T) : Nat :=
  match s.inner with
  | .stack a => a.len
  | .heap v => v.length

/-- `SwitchVec::as_slice` (src/switch.rs line 257). -/
def as_slice (s : SwitchVec N T) : List T :=
  match s.inner with
  | .stack a => a.as_slice
  | .heap v => v

/-- `SwitchVec::clear` (src/switch.rs line 333): clears whichever variant
is active (a heap `Vec::clear` keeps the heap allocation). -/
def clear (s : SwitchVec N T) : SwitchVec N T :=
  match s.inner with
  | .stack a => ⟨.stack a.clear⟩
  | .heap _ => ⟨.heap []⟩

/-- `SwitchVec::switch_heap` (src/switch.rs line 361): no-op returning
`true` when already heap; otherwise tries `Vec::try_reserve_exact(len)`
(outcome given by the `allocOk` oracle) — on failure returns `false`
with the container untouched, on success moves every element into the
new heap buffer. -/
def switch_heap (s : SwitchVec N T) (allocOk : Bool) : Bool × SwitchVec N T :=
  match s.inner with
  | .heap _ => (true, s)
  | .stack a =>
    if allocOk then (true, ⟨.heap a.data⟩)
    else (false, s)

/-- `SwitchVec::switch_stack` (src/switch.rs line 434): no-op returning
`true` when already inline; otherwise builds a fresh `Array::new` and
`extend`s it with the heap elements (truncating at capacity `N`), then
returns `true`. -/
def switch_stack (s : SwitchVec N T) : Bool × SwitchVec N T :=
  match s.inner with
  | .stack _ => (true, s)
  | .heap v => (true, ⟨.stack ((Array.new N T).extend v)⟩)

/-- `SwitchVec::reserve` (src/switch.rs line 503): inline with room is a
no-op returning `true`; inline without room first runs `switch_heap`
(migration allocation outcome `allocMigrate`), returning `false` in the
still-inline state if that fails, then runs `Vec::try_reserve(additional)`
(outcome `allocGrow`) on the now-heap container; already-heap runs only
`Vec::try_reserve(additional)`. -/
def reserve (s : SwitchVec N T) (additional : Nat) (allocMigrate allocGrow : Bool) :
    Bool × SwitchVec N T :=
  match s.inner with
  | .stack a =>
    if a.len + additional ≤ a.capacity then (true, s)
    else
      let r := s.switch_heap allocMigrate
      if r.1 = false then (false, r.2)
      else (allocGrow, r.2)
  | .heap _ => (allocGrow, s)

/-- `SwitchVec::push` (src/switch.rs line 549): `reserve(1)` first,
returning `Err(value)` on failure, then delegates to the active
variant's push.  The inline `Array::push` panic branch is unreachable
after a successful reserve while inline and is modelled as a no-op. -/
def push (s : SwitchVec N T) (value : T) (allocMigrate allocGrow : Bool) :
    Except T (SwitchVec N T) :=
  let r := s.reserve 1 allocMigrate allocGrow
  if r.1 = false then .error value
  else
    match r.2.inner with
    | .stack a =>
      match a.push_checked value with
      | .ok a2 => .ok ⟨.stack a2⟩
      | .error _ => .ok ⟨.stack a⟩
    | .heap v => .ok ⟨.heap (v ++ [value])⟩

/-- `SwitchVec::insert` (src/switch.rs line 606): `reserve(1)` first,
returning `Err(element)` on failure, then delegates to the active
variant's insert; the out-of-bounds panic of either variant is modelled
as a no-op (a panic aborts the sequence). -/
def insert (s : SwitchVec N T) (index : Nat) (element : T)
    (allocMigrate allocGrow : Bool) : Except T (SwitchVec N T) :=
  let r := s.reserve 1 allocMigrate allocGrow
  if r.1 = false then .error element
  else
    match r.2.inner with
    | .stack a =>
      match a.insert_checked index element with
      | .ok a2 => .ok ⟨.stack a2⟩
      | .error _ => .ok ⟨.stack a⟩
    | .heap v =>
      if index ≤ v.length then .ok ⟨.heap (v.take index ++ element :: v.drop index)⟩
      else .ok ⟨.heap v⟩

/-- `SwitchVec::pop` (src/switch.rs line 578): delegates directly to the
active variant; never allocates. -/
def pop (s : SwitchVec N T) : Option T × SwitchVec N T :=
  match s.inner with
  | .stack a =>
    let r := a.pop
    (r.1, ⟨.stack r.2⟩)
  | .heap v =>
    if v.length = 0 then (none, s)
    else (v.getLast?, ⟨.heap v.dropLast⟩)

/-- `SwitchVec::remove` (src/switch.rs line 642): `None` when
`index >= len`, else delegates to the active variant. -/
def remove (s : SwitchVec N T) (index : Nat) : Option T × SwitchVec N T :=
  if index ≥ s.len then (none, s)
  else
    match s.inner with
    | .stack a =>
      let r := a.remove_checked index
      (r.1, ⟨.stack r.2⟩)
    | .heap v => (v[index]?, ⟨.heap (v.take index ++ v.drop (index + 1))⟩)

/-- `SwitchVec::swap_remove` (src/switch.rs line 676): `None` when
`index >= len`, else delegates to the active variant
(`Vec::swap_remove` moves the last element into slot `index`). -/
def swap_remove (s : SwitchVec N T) (index : Nat) : Option T × SwitchVec N T :=
  if index ≥ s.len then (none, s)
  else
    match s.inner with
    | .stack a =>
      let r := a.swap_remove_checked index
      (r.1, ⟨.stack r.2⟩)
    | .heap v =>
      match v[index]?, v[v.length - 1]? with
      | some old, some last => (some old, ⟨.heap ((v.set index last).dropLast)⟩)
      | _, _ => (none, s)

/-- `Extend::extend` for `SwitchVec` (src/switch.rs line 752): pushes each
element (with its allocation-oracle pair), stopping at the first failure. -/
def extend : SwitchVec N T → List (T × Bool × Bool) → SwitchVec N T
  | s, [] => s
  | s, (v, a1, a2) :: rest =>
    match s.push v a1 a2 with
    | .ok s2 => extend s2 rest
    | .error _ => s

end SwitchVec

/-- Alphabet of public `SwitchVec` mutating operations, each allocation
attempt carrying its oracle outcome, used to state temporal properties
over arbitrary operation sequences. -/
inductive Op (T : Type) where
  | push (v : T) (a1 a2 : Bool)
  | pop
  | insert (i : Nat) (v : T) (a1 a2 : Bool)
  | remove (i : Nat)
  | swapRemove (i : Nat)
  | reserve (n : Nat) (a1 a2 : Bool)
  | switchHeap (a1 : Bool)
  | switchStack
  | clear
  | extend (l : List (T × Bool × Bool))
deriving DecidableEq

/-- State transition of one `SwitchVec` operation (return values
discarded; a failed fallible operation leaves the state it produced). -/
def SwitchVec.step {N : Nat} {T : Type} (s : SwitchVec N T) : Op T → SwitchVec N T
  | .push v a1 a2 =>
    match s.push v a1 a2 with
    | .ok s2 => s2
    | .error _ => (s.reserve 1 a1 a2).2
  | .pop => (s.pop).2
  | .insert i v a1 a2 =>
    match s.insert i v a1 a2 with
    | .ok s2 => s2
    | .error _ => (s.reserve 1 a1 a2).2
  | .remove i => (s.remove i).2
  | .swapRemove i => (s.swap_remove i).2
  | .reserve n a1 a2 => (s.reserve n a1 a2).2
  | .switchHeap a1 => (s.switch_heap a1).2
  | .switchStack => (s.switch_stack).2
  | .clear => s.clear
  | .extend l => s.extend l

/-- Alphabet of public `Array` mutating operations (checked tier), used
to state the capacity invariant over arbitrary operation sequences. -/
inductive AOp (T : Type) where
  | push (v : T)
  | pop
  | insert (i : Nat) (v : T)
  | swapInsert (i : Nat) (v : T)
  | remove (i : Nat)
  | swapRemove (i : Nat)
  | clear
  | extend (l : List T)
deriving DecidableEq

/-- State transition of one checked `Array` operation (return values
discarded; a failed checked operation leaves the state unchanged, as the
Rust checked tier does). -/
def Array.astep {N : Nat} {T : Type} (a : Array N T) : AOp T → Array N T
  | .push v =>
    match a.push_checked v with
    | .ok a2 => a2
    | .error _ => a
  | .pop => (a.pop).2
  | .insert i v =>
    match a.insert_checked i v with
    | .ok a2 => a2
    | .error _ => a
  | .swapInsert i v =>
    match a.swap_insert_checked i v with
    | .ok a2 => a2
    | .error _ => a
  | .remove i => (a.remove_checked i).2
  | .swapRemove i => (a.swap_remove_checked i).2
  | .clear => a.clear
  | .extend l => a.extend l

/-- One push-or-pop request, for the refinement claim relating `Array`
to the reference dynamic-array model. -/
inductive PP (T : Type) where
  | push (v : T)
  | pop
deriving DecidableEq

/-- Runs a sequence of push/pop requests on an `Array` with
`push_checked` / `pop`, collecting each pop's returned value in order. -/
def Array.runPP {N : Nat} {T : Type} : Array N T → List (PP T) → Array N T × List (Option T)
  | a, [] => (a, [])
  | a, .push v :: ops =>
    match a.push_checked v with
    | .ok a2 => runPP a2 ops
    | .error _ => runPP a ops
  | a, .pop :: ops =>
    let r := a.pop
    let rest := runPP r.2 ops
    (rest.1, r.1 :: rest.2)

/-- Reference dynamic-array model for the refinement claim, following the
spec's words: an unbounded list where push appends at the tail and pop
removes and returns the tail element (or reports empty). -/
def modelRunPP {T : Type} : List T → List (PP T) → List T × List (Option T)
  | l, [] => (l, [])
  | l, .push v :: ops => modelRunPP (l ++ [v]) ops
  | l, .pop :: ops =>
    let rest := modelRunPP l.dropLast ops
    (rest.1, l.getLast? :: rest.2)

/-! ## Helper lemmas -/

/-- Inserting `v` at slot `i` of a list and then removing slot `i` reads
back `v` and restores the original list. -/
theorem insert_remove_aux {T : Type} (d : List T) (i : Nat) (v : T) (h : i ≤ d.length) :
    (d.take i ++ v :: d.drop i)[i]? = some v ∧
    (d.take i ++ v :: d.drop i).take i ++ (d.take i ++ v :: d.drop i).drop (i + 1) = d := by
  induction d generalizing i with
  | nil =>
    have : i = 0 := Nat.le_zero.mp h
    subst this
    simp
  | cons x xs ih =>
    cases i with
    | zero => simp
    | succ j =>
      have hj : j ≤ xs.length := by simpa using h
      obtain ⟨ih1, ih2⟩ := ih j hj
      simp only [List.take_succ_cons, List.drop_succ_cons, List.cons_append,
        List.getElem?_cons_succ]
      exact ⟨ih1, by rw [ih2]⟩

/-! ## C2: checked insert failure condition and failure report -/

/-- C2 counterexample: on `Array<1, Nat>` holding `[5]`,
`insert_checked 2 7` fails out-of-bounds (`2 > len`) while
`insert_checked 1 7` fails at-capacity (`1 <= len` and `len == capacity`),
yet both return the identical report `Err(7)` — the caller cannot tell
which precondition was violated, refuting the distinguishability part of
the claim. -/
theorem insert_checked_indistinct_cex :
    (⟨[5]⟩ : Array 1 Nat).insert_checked 2 7 = .error 7 ∧
    (⟨[5]⟩ : Array 1 Nat).insert_checked 1 7 = .error 7 ∧
    2 > (⟨[5]⟩ : Array 1 Nat).len ∧
    ¬ 1 > (⟨[5]⟩ : Array 1 Nat).len ∧
    (⟨[5]⟩ : Array 1 Nat).len = (⟨[5]⟩ : Array 1 Nat).capacity ∧
    (⟨[5]⟩ : Array 1 Nat).insert_checked 2 7 = (⟨[5]⟩ : Array 1 Nat).insert_checked 1 7 :=
  ⟨rfl, rfl, by decide, by decide, rfl, rfl⟩

/-- C2 (amended): `insert_checked` fails exactly when `index > len` or
`len == capacity` (given the `len <= N` invariant), and the failure
report is `Err(element)` in both cases, indistinguishable to the caller;
only the panicking `insert` variant distinguishes the two cases, via the
distinct panic messages "index out of bounds" and
"insert exceeds capacity". -/
theorem insert_checked_error_iff (N : Nat) (T : Type) (a : Array N T) (i : Nat) (v : T)
    (hinv : a.len ≤ N) :
    (a.insert_checked i v = .error v ↔ (i > a.len ∨ a.len = N)) ∧
    (i > a.len → a.insert i v = .error "index out of bounds") ∧
    (i ≤ a.len → a.len = N → a.insert i v = .error "insert exceeds capacity") := by
  have hcap : a.capacity = N := rfl
  refine ⟨⟨?_, ?_⟩, ?_, ?_⟩
  · intro h
    by_cases h1 : i > a.len
    · exact Or.inl h1
    · right
      by_cases h2 : a.len + 1 > a.capacity
      · rw [hcap] at h2; omega
      · exfalso
        simp only [Array.insert_checked, if_neg h1, if_neg h2] at h
        exact Except.noConfusion h
  · intro h
    rcases h with h1 | h2
    · simp only [Array.insert_checked, if_pos h1]
    · have h2' : a.len + 1 > a.capacity := by rw [hcap]; omega
      by_cases h1 : i > a.len
      · simp only [Array.insert_checked, if_pos h1]
      · simp only [Array.insert_checked, if_neg h1, if_pos h2']
  · intro h1
    simp only [Array.insert, Array.insert_checked, if_pos h1]
  · intro h1 h2
    have h1' : ¬ i > a.len := by omega
    have h2' : a.len + 1 > a.capacity := by rw [hcap]; omega
    simp only [Array.insert, Array.insert_checked, if_neg h1', if_pos h2']

/-- C2 witness: the amended theorem applied to `Array<2, Nat>` holding
`[5]` at index 3. -/
theorem insert_checked_error_iff_witness :
    (⟨[5]⟩ : Array 2 Nat).len ≤ 2 ∧
    (((⟨[5]⟩ : Array 2 Nat).insert_checked 3 7 = .error 7 ↔
        (3 > (⟨[5]⟩ : Array 2 Nat).len ∨ (⟨[5]⟩ : Array 2 Nat).len = 2)) ∧
      (3 > (⟨[5]⟩ : Array 2 Nat).len →
        (⟨[5]⟩ : Array 2 Nat).insert 3 7 = .error "index out of bounds") ∧
      (3 ≤ (⟨[5]⟩ : Array 2 Nat).len → (⟨[5]⟩ : Array 2 Nat).len = 2 →
        (⟨[5]⟩ : Array 2 Nat).insert 3 7 = .error "insert exceeds capacity")) :=
  ⟨by decide, insert_checked_error_iff 2 Nat ⟨[5]⟩ 3 7 (by decide)⟩

/-! ## C4: insert/remove round trip -/

/-- C4: on an `Array` with `len < capacity` and `index <= len`,
`insert_unchecked(i, v)` immediately followed by `remove_unchecked(i)`
returns `v` from the remove, and the content and length afterwards equal
the content and length before the insert. -/
theorem insert_remove_roundtrip (N : Nat) (T : Type) (a : Array N T) (i : Nat) (v : T)
    (_hcap : a.len < N) (hi : i ≤ a.len) :
    ((a.insert_unchecked i v).remove_unchecked i).1 = some v ∧
    ((a.insert_unchecked i v).remove_unchecked i).2.data = a.data ∧
    ((a.insert_unchecked i v).remove_unchecked i).2.len = a.len := by
  obtain ⟨h1, h2⟩ := insert_remove_aux a.data i v hi
  exact ⟨h1, h2, congrArg List.length h2⟩

/-- C4 witness: the round trip on `Array<4, Nat>` holding `[1, 2, 3]` at
index 1 with value 9. -/
theorem insert_remove_roundtrip_witness :
    (⟨[1, 2, 3]⟩ : Array 4 Nat).len < 4 ∧ 1 ≤ (⟨[1, 2, 3]⟩ : Array 4 Nat).len ∧
    ((((⟨[1, 2, 3]⟩ : Array 4 Nat).insert_unchecked 1 9).remove_unchecked 1).1 = some 9 ∧
      (((⟨[1, 2, 3]⟩ : Array 4 Nat).insert_unchecked 1 9).remove_unchecked 1).2.data = [1, 2, 3] ∧
      (((⟨[1, 2, 3]⟩ : Array 4 Nat).insert_unchecked 1 9).remove_unchecked 1).2.len =
        (⟨[1, 2, 3]⟩ : Array 4 Nat).len) :=
  ⟨by decide, by decide,
    insert_remove_roundtrip 4 Nat ⟨[1, 2, 3]⟩ 1 9 (by decide) (by decide)⟩

/-! ## C5: swap_remove specification -/

/-- C5: `swap_remove_checked(i)` on an `Array` of length `L` with
`i < L` returns the element originally at `i`; afterwards the length is
`L - 1`, the element at `i` is the one previously at `L - 1` (when
`i < L - 1`), and every position other than `i` and `L - 1` is
unchanged. -/
theorem swap_remove_spec (N : Nat) (T : Type) (a : Array N T) (i : Nat)
    (h : i < a.len) :
    (a.swap_remove_checked i).1 = a.data[i]? ∧
    (a.swap_remove_checked i).2.len = a.len - 1 ∧
    (i < a.len - 1 → (a.swap_remove_checked i).2.data[i]? = a.data[a.len - 1]?) ∧
    (∀ j, j < a.len - 1 → j ≠ i → (a.swap_remove_checked i).2.data[j]? = a.data[j]?) := by
  have hlen : a.len = a.data.length := rfl
  have hi : i < a.data.length := by omega
  have hl : a.data.length - 1 < a.data.length := by omega
  have hgi : a.data[i]? = some a.data[i] := List.getElem?_eq_getElem hi
  have hgl : a.data[a.len - 1]? = some a.data[a.data.length - 1] := by
    rw [hlen]; exact List.getElem?_eq_getElem hl
  have hne : ¬ i ≥ a.len := by omega
  have hred : a.swap_remove_checked i =
      (some a.data[i], ⟨(a.data.set i a.data[a.data.length - 1]).dropLast⟩) := by
    rw [Array.swap_remove_checked, if_neg hne, Array.swap_remove_unchecked, hgi, hgl]
  refine ⟨by rw [hred, hgi], ?_, ?_, ?_⟩
  · rw [hred]
    show ((a.data.set i a.data[a.data.length - 1]).dropLast).length = a.len - 1
    rw [List.length_dropLast, List.length_set, hlen]
  · intro hi1
    rw [hred]
    show ((a.data.set i a.data[a.data.length - 1]).dropLast)[i]? = a.data[a.len - 1]?
    rw [List.getElem?_dropLast, List.length_set]
    rw [if_pos (by omega : i < a.data.length - 1)]
    rw [List.getElem?_set_self (by omega), hgl]
  · intro j hj hji
    rw [hred]
    show ((a.data.set i a.data[a.data.length - 1]).dropLast)[j]? = a.data[j]?
    rw [List.getElem?_dropLast, List.length_set]
    rw [if_pos (by omega : j < a.data.length - 1)]
    exact List.getElem?_set_ne (by omega)

/-- C5 witness: `swap_remove_checked 0` on `Array<4, Nat>` holding
`[1, 9, 2, 3]`. -/
theorem swap_remove_spec_witness :
    0 < (⟨[1, 9, 2, 3]⟩ : Array 4 Nat).len ∧
    (((⟨[1, 9, 2, 3]⟩ : Array 4 Nat).swap_remove_checked 0).1 =
        (⟨[1, 9, 2, 3]⟩ : Array 4 Nat).data[0]? ∧
      ((⟨[1, 9, 2, 3]⟩ : Array 4 Nat).swap_remove_checked 0).2.len =
        (⟨[1, 9, 2, 3]⟩ : Array 4 Nat).len - 1 ∧
      (0 < (⟨[1, 9, 2, 3]⟩ : Array 4 Nat).len - 1 →
        ((⟨[1, 9, 2, 3]⟩ : Array 4 Nat).swap_remove_checked 0).2.data[0]? =
          (⟨[1, 9, 2, 3]⟩ : Array 4 Nat).data[(⟨[1, 9, 2, 3]⟩ : Array 4 Nat).len - 1]?) ∧
      (∀ j, j < (⟨[1, 9, 2, 3]⟩ : Array 4 Nat).len - 1 → j ≠ 0 →
        ((⟨[1, 9, 2, 3]⟩ : Array 4 Nat).swap_remove_checked 0).2.data[j]? =
          (⟨[1, 9, 2, 3]⟩ : Array 4 Nat).data[j]?)) :=
  ⟨by decide, swap_remove_spec 4 Nat ⟨[1, 9, 2, 3]⟩ 0 (by decide)⟩

/-! ## C10: extend truncates silently at capacity -/

/-- Content of `Array.extend`: the input's prefix that fits in the
remaining capacity is appended, the rest is discarded. -/
theorem extend_data {N : Nat} {T : Type} (l : List T) :
    ∀ a : Array N T, a.len ≤ N →
      (a.extend l).data = a.data ++ l.take (N - a.len) := by
  induction l with
  | nil => intro a _; simp [Array.extend]
  | cons x xs ih =>
    intro a h
    by_cases hc : a.len = a.capacity
    · have hcn : a.len = N := hc
      simp only [Array.extend, Array.push_checked, if_pos hc]
      rw [hcn, Nat.sub_self, List.take_zero, List.append_nil]
    · have hlt : a.len < N := lt_of_le_of_ne h hc
      simp only [Array.extend, Array.push_checked, if_neg hc]
      have hlen2 : (⟨a.data ++ [x]⟩ : Array N T).len = a.len + 1 := by
        show (a.data ++ [x]).length = a.data.length + 1
        simp
      rw [ih ⟨a.data ++ [x]⟩ (by rw [hlen2]; omega), hlen2]
      show (a.data ++ [x]) ++ xs.take (N - (a.len + 1)) = a.data ++ (x :: xs).take (N - a.len)
      rw [List.append_assoc]
      have hsub : N - a.len = (N - (a.len + 1)) + 1 := by omega
      rw [hsub, List.take_succ_cons]
      rfl

/-- Length of `Array.extend`: `min (len + supplied, N)` when the
invariant holds. -/
theorem extend_len {N : Nat} {T : Type} (a : Array N T) (l : List T) (h : a.len ≤ N) :
    (a.extend l).len = min (a.len + l.length) N := by
  show (a.extend l).data.length = _
  rw [extend_data l a h]
  have hd : a.len = a.data.length := rfl
  rw [List.length_append, List.length_take]
  omega

/-- C10: for every `Array` (satisfying the `len <= N` invariant) and every
input list, `extend` appends elements in order only until the array is
full and then silently stops: the resulting content is the old content
followed by the first `N - len` supplied elements, the resulting length
is `min (len + supplied, N)`, and `from_iter` (collect) yields the first
`N` elements of its input.  No error is reported. -/
theorem extend_truncates (N : Nat) (T : Type) (a : Array N T) (l : List T)
    (h : a.len ≤ N) :
    (a.extend l).as_slice = a.as_slice ++ l.take (N - a.len) ∧
    (a.extend l).len = min (a.len + l.length) N ∧
    (Array.from_iter N T l).as_slice = l.take N := by
  refine ⟨extend_data l a h, extend_len a l h, ?_⟩
  have h0 : (Array.new N T).len ≤ N := by
    show ([] : List T).length ≤ N
    simp
  have := extend_data l (Array.new N T) h0
  simpa [Array.from_iter, Array.new, Array.len] using this

/-- C10 witness: extending `Array<2, Nat>` holding `[1]` with
`[2, 3, 4]`. -/
theorem extend_truncates_witness :
    (⟨[1]⟩ : Array 2 Nat).len ≤ 2 ∧
    (((⟨[1]⟩ : Array 2 Nat).extend [2, 3, 4]).as_slice =
        (⟨[1]⟩ : Array 2 Nat).as_slice ++ [2, 3, 4].take (2 - (⟨[1]⟩ : Array 2 Nat).len) ∧
      ((⟨[1]⟩ : Array 2 Nat).extend [2, 3, 4]).len =
        min ((⟨[1]⟩ : Array 2 Nat).len + [2, 3, 4].length) 2 ∧
      (Array.from_iter 2 Nat [2, 3, 4]).as_slice = [2, 3, 4].take 2) :=
  ⟨by decide, extend_truncates 2 Nat ⟨[1]⟩ [2, 3, 4] (by decide)⟩

/-! ## C7: switch_stack truncates to the inline capacity -/

/-- C7: `switch_stack` on a heap-backed `SwitchVec` of length `L > N`
succeeds and leaves the container inline-backed (`is_heap() == false`)
holding exactly the first `N` elements of the previous content in order;
the remaining `L - N` elements are discarded. -/
theorem switch_stack_truncates (N : Nat) (T : Type) (v : List T) (hv : N < v.length) :
    ((⟨Inner.heap v⟩ : SwitchVec N T).switch_stack).1 = true ∧
    ((⟨Inner.heap v⟩ : SwitchVec N T).switch_stack).2.is_heap = false ∧
    ((⟨Inner.heap v⟩ : SwitchVec N T).switch_stack).2.as_slice = v.take N ∧
    ((⟨Inner.heap v⟩ : SwitchVec N T).switch_stack).2.len = N := by
  have h0 : (Array.new N T).len ≤ N := by
    show ([] : List T).length ≤ N
    simp
  have hd : ((Array.new N T).extend v).data = v.take N := by
    have := extend_data v (Array.new N T) h0
    simpa [Array.new] using this
  refine ⟨rfl, rfl, hd, ?_⟩
  show ((Array.new N T).extend v).data.length = N
  rw [hd, List.length_take]
  omega

/-- C7 witness: `switch_stack` on a heap-backed `SwitchVec<4, Nat>`
holding `[1, 2, 3, 4, 5]`. -/
theorem switch_stack_truncates_witness :
    4 < [1, 2, 3, 4, 5].length ∧
    (((⟨Inner.heap [1, 2, 3, 4, 5]⟩ : SwitchVec 4 Nat).switch_stack).1 = true ∧
      ((⟨Inner.heap [1, 2, 3, 4, 5]⟩ : SwitchVec 4 Nat).switch_stack).2.is_heap = false ∧
      ((⟨Inner.heap [1, 2, 3, 4, 5]⟩ : SwitchVec 4 Nat).switch_stack).2.as_slice =
        [1, 2, 3, 4, 5].take 4 ∧
      ((⟨Inner.heap [1, 2, 3, 4, 5]⟩ : SwitchVec 4 Nat).switch_stack).2.len = 4) :=
  ⟨by decide, switch_stack_truncates 4 Nat [1, 2, 3, 4, 5] (by decide)⟩

/-! ## C9: the length invariant -/

/-- One checked `Array` operation preserves `len <= N`. -/
theorem astep_len_le {N : Nat} {T : Type} (a : Array N T) (op : AOp T)
    (h : a.len ≤ N) : (a.astep op).len ≤ N := by
  have hd : a.len = a.data.length := rfl
  cases op with
  | push v =>
    simp only [Array.astep]
    by_cases hc : a.len = a.capacity
    · simp only [Array.push_checked, if_pos hc]
      exact h
    · have hlt : a.len < N := lt_of_le_of_ne h hc
      simp only [Array.push_checked, if_neg hc]
      show (a.data ++ [v]).length ≤ N
      simp only [List.length_append, List.length_cons, List.length_nil]
      omega
  | pop =>
    simp only [Array.astep, Array.pop]
    split
    · exact h
    · show a.data.dropLast.length ≤ N
      rw [List.length_dropLast]
      omega
  | insert i v =>
    simp only [Array.astep]
    by_cases h1 : i > a.len
    · simp only [Array.insert_checked, if_pos h1]
      exact h
    · by_cases h2 : a.len + 1 > a.capacity
      · simp only [Array.insert_checked, if_neg h1, if_pos h2]
        exact h
      · have h2' : a.len + 1 ≤ N := Nat.le_of_not_lt h2
        simp only [Array.insert_checked, if_neg h1, if_neg h2]
        show (a.data.take i ++ v :: a.data.drop i).length ≤ N
        rw [List.length_append, List.length_cons, List.length_take, List.length_drop]
        omega
  | swapInsert i v =>
    simp only [Array.astep]
    by_cases h1 : i > a.len
    · simp only [Array.swap_insert_checked, if_pos h1]
      exact h
    · by_cases h2 : a.len + 1 > a.capacity
      · simp only [Array.swap_insert_checked, if_neg h1, if_pos h2]
        exact h
      · have h2' : a.len + 1 ≤ N := Nat.le_of_not_lt h2
        simp only [Array.swap_insert_checked, if_neg h1, if_neg h2,
          Array.swap_insert_unchecked]
        cases hx : a.data[i]? with
        | some old =>
          show (a.data.set i v ++ [old]).length ≤ N
          simp only [List.length_append, List.length_set, List.length_cons, List.length_nil]
          omega
        | none =>
          show (a.data ++ [v]).length ≤ N
          simp only [List.length_append, List.length_cons, List.length_nil]
          omega
  | remove i =>
    simp only [Array.astep, Array.remove_checked]
    split
    · exact h
    · simp only [Array.remove_unchecked]
      show (a.data.take i ++ a.data.drop (i + 1)).length ≤ N
      rw [List.length_append, List.length_take, List.length_drop]
      omega
  | swapRemove i =>
    simp only [Array.astep, Array.swap_remove_checked]
    split
    · exact h
    · simp only [Array.swap_remove_unchecked]
      split
      · show ((a.data.set _ _).dropLast).length ≤ N
        rw [List.length_dropLast, List.length_set]
        omega
      · exact h
  | clear =>
    show ([] : List T).length ≤ N
    simp
  | extend l =>
    simp only [Array.astep]
    rw [extend_len a l h]
    omega

/-- The invariant `len <= N` is preserved by every sequence of checked
`Array` operations. -/
theorem foldl_astep_len_le {N : Nat} {T : Type} (ops : List (AOp T)) :
    ∀ a : Array N T, a.len ≤ N → (ops.foldl Array.astep a).len ≤ N := by
  induction ops with
  | nil => intro a h; exact h
  | cons op rest ih =>
    intro a h
    exact ih _ (astep_len_le a op h)

/-- C9: for every `Array` of capacity `N`, `len <= N` holds after
construction (`new` or bulk construction from an `M`-element array with
`M <= N`) and is preserved by every sequence of public operations (push,
pop, insert, swap_insert, remove, swap_remove, clear, extend). -/
theorem len_le_capacity_invariant (N : Nat) (T : Type) (ops : List (AOp T))
    (init : List T) (a0 : Array N T) (h0 : Array.from_parts N init = some a0) :
    (ops.foldl Array.astep (Array.new N T)).len ≤ N ∧
    (ops.foldl Array.astep a0).len ≤ N := by
  constructor
  · refine foldl_astep_len_le ops (Array.new N T) ?_
    show ([] : List T).length ≤ N
    simp
  · refine foldl_astep_len_le ops a0 ?_
    unfold Array.from_parts at h0
    split at h0
    · cases h0
      assumption
    · cases h0

/-- C9 witness: constructing from `[1, 2]` in `Array<2, Nat>` and running
a mixed operation sequence. -/
theorem len_le_capacity_invariant_witness :
    Array.from_parts 2 [1, 2] = some (⟨[1, 2]⟩ : Array 2 Nat) ∧
    (([AOp.push 3, AOp.pop, AOp.insert 0 7, AOp.swapInsert 1 8, AOp.remove 0,
        AOp.swapRemove 0, AOp.extend [4, 5, 6], AOp.clear] :
          List (AOp Nat)).foldl Array.astep (Array.new 2 Nat)).len ≤ 2 ∧
    (([AOp.push 3, AOp.pop, AOp.insert 0 7, AOp.swapInsert 1 8, AOp.remove 0,
        AOp.swapRemove 0, AOp.extend [4, 5, 6], AOp.clear] :
          List (AOp Nat)).foldl Array.astep (⟨[1, 2]⟩ : Array 2 Nat)).len ≤ 2 := by
  refine ⟨by decide, ?_⟩
  exact len_le_capacity_invariant 2 Nat
    [AOp.push 3, AOp.pop, AOp.insert 0 7, AOp.swapInsert 1 8, AOp.remove 0,
      AOp.swapRemove 0, AOp.extend [4, 5, 6], AOp.clear] [1, 2] ⟨[1, 2]⟩ (by decide)

/-! ## C3: push/pop refinement of the dynamic-array model -/

/-- `Array.pop` computed on the content list: returns the tail element
(or `none` on empty) and drops it; on the empty list both branches of
the implementation coincide with this form. -/
theorem pop_eq {N : Nat} {T : Type} (l : List T) :
    (⟨l⟩ : Array N T).pop = (l.getLast?, ⟨l.dropLast⟩) := by
  cases l with
  | nil => simp [Array.pop, Array.is_empty, Array.len]
  | cons x xs => simp [Array.pop, Array.is_empty, Array.len]

/-- A push/pop sequence on an `Array` whose model-side length stays
within `N` produces exactly the model's content and pop results. -/
theorem runPP_eq_model {N : Nat} {T : Type} (ops : List (PP T)) :
    ∀ l : List T,
      (∀ k, k ≤ ops.length → (modelRunPP l (ops.take k)).1.length ≤ N) →
      (Array.runPP (⟨l⟩ : Array N T) ops).1.data = (modelRunPP l ops).1 ∧
      (Array.runPP (⟨l⟩ : Array N T) ops).2 = (modelRunPP l ops).2 := by
  induction ops with
  | nil => intro l _; exact ⟨rfl, rfl⟩
  | cons op rest ih =>
    intro l h
    cases op with
    | push v =>
      have h1 := h 1 (by simp)
      simp only [List.take_succ_cons, List.take_zero, modelRunPP] at h1
      have hlen : l.length + 1 ≤ N := by simpa using h1
      have hne : ¬ ((⟨l⟩ : Array N T).len = (⟨l⟩ : Array N T).capacity) := by
        show ¬ (l.length = N)
        omega
      have h' : ∀ k, k ≤ rest.length →
          (modelRunPP (l ++ [v]) (rest.take k)).1.length ≤ N := by
        intro k hk
        have := h (k + 1) (by simpa using Nat.succ_le_succ hk)
        simpa [List.take_succ_cons, modelRunPP] using this
      simp only [Array.runPP, Array.push_checked, if_neg hne, modelRunPP]
      exact ih (l ++ [v]) h'
    | pop =>
      have h' : ∀ k, k ≤ rest.length →
          (modelRunPP l.dropLast (rest.take k)).1.length ≤ N := by
        intro k hk
        have := h (k + 1) (by simpa using Nat.succ_le_succ hk)
        simpa [List.take_succ_cons, modelRunPP] using this
      obtain ⟨ihd, iho⟩ := ih l.dropLast h'
      simp only [Array.runPP, pop_eq, modelRunPP]
      exact ⟨ihd, by rw [iho]⟩

/-- C3: for every `Array` of capacity `N` starting empty and every
push/pop sequence during which the reference model's length never
exceeds `N`, the live content (`as_slice`) after the sequence equals the
content the reference dynamic-array model holds, and each pop returns
the same optional value as the model. -/
theorem push_pop_refines_model (N : Nat) (T : Type) (ops : List (PP T))
    (h : ∀ k, k ≤ ops.length → (modelRunPP ([] : List T) (ops.take k)).1.length ≤ N) :
    ((Array.new N T).runPP ops).1.as_slice = (modelRunPP [] ops).1 ∧
    ((Array.new N T).runPP ops).2 = (modelRunPP [] ops).2 :=
  runPP_eq_model ops [] h

/-- C3 witness: the sequence push 1, push 2, pop, push 3 on
`Array<2, Nat>`. -/
theorem push_pop_refines_model_witness :
    (∀ k, k ≤ ([PP.push 1, PP.push 2, PP.pop, PP.push 3] : List (PP Nat)).length →
      (modelRunPP ([] : List Nat)
        (([PP.push 1, PP.push 2, PP.pop, PP.push 3] : List (PP Nat)).take k)).1.length ≤ 2) ∧
    (((Array.new 2 Nat).runPP [PP.push 1, PP.push 2, PP.pop, PP.push 3]).1.as_slice =
        (modelRunPP [] [PP.push 1, PP.push 2, PP.pop, PP.push 3]).1 ∧
      ((Array.new 2 Nat).runPP [PP.push 1, PP.push 2, PP.pop, PP.push 3]).2 =
        (modelRunPP [] [PP.push 1, PP.push 2, PP.pop, PP.push 3]).2) :=
  ⟨by decide, push_pop_refines_model 2 Nat [PP.push 1, PP.push 2, PP.pop, PP.push 3]
    (by decide)⟩

/-! ## C1: state after a failed reserve -/

/-- C1 counterexample: on an inline `SwitchVec<1, Nat>` holding `[5]`,
`reserve(1)` with the migration allocation succeeding and the subsequent
heap `try_reserve` failing returns failure, yet `is_heap()` has changed
from `false` to `true` — the active representation is not as it was
before the call, refuting the claim as stated. -/
theorem reserve_fail_switches_rep_cex :
    ((⟨Inner.stack ⟨[5]⟩⟩ : SwitchVec 1 Nat).reserve 1 true false).1 = false ∧
    (⟨Inner.stack ⟨[5]⟩⟩ : SwitchVec 1 Nat).is_heap = false ∧
    ((⟨Inner.stack ⟨[5]⟩⟩ : SwitchVec 1 Nat).reserve 1 true false).2.is_heap = true := by
  decide

/-- C1 (amended): whenever `reserve` fails, the element content and
length are identical to before the call; if the container was already
heap-backed, or the failure was the migrate-to-heap allocation itself
(so a failed migrate-to-heap leaves `is_heap() == false`), the whole
state is unchanged.  Only when the migration allocation succeeds and the
subsequent heap reservation of `additional` fails does `reserve` report
failure with the container left heap-backed. -/
theorem reserve_fail_preserves_content (N : Nat) (T : Type) (s : SwitchVec N T)
    (additional : Nat) (a1 a2 : Bool)
    (h : (s.reserve additional a1 a2).1 = false) :
    (s.reserve additional a1 a2).2.as_slice = s.as_slice ∧
    (s.reserve additional a1 a2).2.len = s.len ∧
    (s.is_heap = true → (s.reserve additional a1 a2).2 = s) ∧
    (a1 = false → (s.reserve additional a1 a2).2 = s) ∧
    (s.is_heap = false → a1 = false →
      (s.reserve additional a1 a2).2.is_heap = false) := by
  obtain ⟨inner⟩ := s
  cases inner with
  | heap v =>
    exact ⟨rfl, rfl, fun _ => rfl, fun _ => rfl, fun h1 _ => by
      simp [SwitchVec.is_heap] at h1⟩
  | stack a =>
    by_cases hc : a.len + additional ≤ a.capacity
    · exfalso
      simp only [SwitchVec.reserve, if_pos hc] at h
      exact Bool.noConfusion h
    · cases a1 with
      | false =>
        have hr : (⟨Inner.stack a⟩ : SwitchVec N T).reserve additional false a2 =
            (false, ⟨Inner.stack a⟩) := by
          simp [SwitchVec.reserve, hc, SwitchVec.switch_heap]
        rw [hr]
        exact ⟨rfl, rfl, fun _ => rfl, fun _ => rfl, fun _ _ => rfl⟩
      | true =>
        have hr : (⟨Inner.stack a⟩ : SwitchVec N T).reserve additional true a2 =
            (a2, ⟨Inner.heap a.data⟩) := by
          simp [SwitchVec.reserve, hc, SwitchVec.switch_heap]
        rw [hr] at h ⊢
        refine ⟨rfl, rfl, ?_, ?_, ?_⟩
        · intro h1
          exact absurd h1 (by simp [SwitchVec.is_heap])
        · intro h1
          exact Bool.noConfusion h1
        · intro _ h1
          exact Bool.noConfusion h1

/-- C1 witness: a failed migrate-to-heap allocation on an inline
`SwitchVec<1, Nat>` holding `[5]`. -/
theorem reserve_fail_preserves_content_witness :
    ((⟨Inner.stack ⟨[5]⟩⟩ : SwitchVec 1 Nat).reserve 1 false false).1 = false ∧
    (((⟨Inner.stack ⟨[5]⟩⟩ : SwitchVec 1 Nat).reserve 1 false false).2.as_slice =
        (⟨Inner.stack ⟨[5]⟩⟩ : SwitchVec 1 Nat).as_slice ∧
      ((⟨Inner.stack ⟨[5]⟩⟩ : SwitchVec 1 Nat).reserve 1 false false).2.len =
        (⟨Inner.stack ⟨[5]⟩⟩ : SwitchVec 1 Nat).len ∧
      ((⟨Inner.stack ⟨[5]⟩⟩ : SwitchVec 1 Nat).is_heap = true →
        ((⟨Inner.stack ⟨[5]⟩⟩ : SwitchVec 1 Nat).reserve 1 false false).2 =
          (⟨Inner.stack ⟨[5]⟩⟩ : SwitchVec 1 Nat)) ∧
      (false = false →
        ((⟨Inner.stack ⟨[5]⟩⟩ : SwitchVec 1 Nat).reserve 1 false false).2 =
          (⟨Inner.stack ⟨[5]⟩⟩ : SwitchVec 1 Nat)) ∧
      ((⟨Inner.stack ⟨[5]⟩⟩ : SwitchVec 1 Nat).is_heap = false → false = false →
        ((⟨Inner.stack ⟨[5]⟩⟩ : SwitchVec 1 Nat).reserve 1 false false).2.is_heap =
          false)) :=
  ⟨by decide, reserve_fail_preserves_content 1 Nat ⟨Inner.stack ⟨[5]⟩⟩ 1 false false
    (by decide)⟩

/-! ## C6: switch_heap idempotence -/

/-- C6: `switch_heap` on an already heap-backed `SwitchVec` is a no-op
returning success, leaving content and length exactly unchanged; hence a
second `switch_heap` right after gives the same state as the first. -/
theorem switch_heap_idempotent (N : Nat) (T : Type) (s : SwitchVec N T) (b b' : Bool)
    (h : s.is_heap = true) :
    s.switch_heap b = (true, s) ∧
    (s.switch_heap b).2.switch_heap b' = (true, s) ∧
    (s.switch_heap b).2.as_slice = s.as_slice ∧
    (s.switch_heap b).2.len = s.len ∧
    (∀ s0 : SwitchVec N T, (s0.switch_heap b).1 = true →
      (s0.switch_heap b).2.switch_heap b' = (true, (s0.switch_heap b).2)) := by
  have hgen : ∀ s0 : SwitchVec N T, (s0.switch_heap b).1 = true →
      (s0.switch_heap b).2.switch_heap b' = (true, (s0.switch_heap b).2) := by
    intro s0 h0
    obtain ⟨inner0⟩ := s0
    cases inner0 with
    | heap w => rfl
    | stack a0 =>
      cases b with
      | false =>
        exfalso
        simp [SwitchVec.switch_heap] at h0
      | true => rfl
  obtain ⟨inner⟩ := s
  cases inner with
  | stack a => simp [SwitchVec.is_heap] at h
  | heap v => exact ⟨rfl, rfl, rfl, rfl, hgen⟩

/-- C6 witness: a heap-backed `SwitchVec<2, Nat>` holding `[1, 2]`. -/
theorem switch_heap_idempotent_witness :
    (⟨Inner.heap [1, 2]⟩ : SwitchVec 2 Nat).is_heap = true ∧
    ((⟨Inner.heap [1, 2]⟩ : SwitchVec 2 Nat).switch_heap true =
        (true, (⟨Inner.heap [1, 2]⟩ : SwitchVec 2 Nat)) ∧
      ((⟨Inner.heap [1, 2]⟩ : SwitchVec 2 Nat).switch_heap true).2.switch_heap false =
        (true, (⟨Inner.heap [1, 2]⟩ : SwitchVec 2 Nat)) ∧
      ((⟨Inner.heap [1, 2]⟩ : SwitchVec 2 Nat).switch_heap true).2.as_slice =
        (⟨Inner.heap [1, 2]⟩ : SwitchVec 2 Nat).as_slice ∧
      ((⟨Inner.heap [1, 2]⟩ : SwitchVec 2 Nat).switch_heap true).2.len =
        (⟨Inner.heap [1, 2]⟩ : SwitchVec 2 Nat).len ∧
      (∀ s0 : SwitchVec 2 Nat, (s0.switch_heap true).1 = true →
        (s0.switch_heap true).2.switch_heap false =
          (true, (s0.switch_heap true).2))) :=
  ⟨by decide, switch_heap_idempotent 2 Nat ⟨Inner.heap [1, 2]⟩ true false (by decide)⟩

/-! ## C8: heap-backed is never left except by switch_stack -/

/-- `SwitchVec.push` on a heap-backed container: fails exactly when the
heap growth reservation fails, otherwise appends. -/
theorem push_heap_cases {N : Nat} {T : Type} (v0 : List T) (value : T) (a1 a2 : Bool) :
    (⟨Inner.heap v0⟩ : SwitchVec N T).push value a1 a2 =
      if a2 then .ok ⟨Inner.heap (v0 ++ [value])⟩ else .error value := by
  cases a2 <;> simp [SwitchVec.push, SwitchVec.reserve]

/-- `SwitchVec.extend` keeps a heap-backed container heap-backed. -/
theorem extend_is_heap {N : Nat} {T : Type} :
    ∀ (l : List (T × Bool × Bool)) (v0 : List T),
      ((⟨Inner.heap v0⟩ : SwitchVec N T).extend l).is_heap = true := by
  intro l
  induction l with
  | nil => intro v0; rfl
  | cons p rest ih =>
    intro v0
    obtain ⟨v, a1, a2⟩ := p
    simp only [SwitchVec.extend, push_heap_cases]
    cases a2 with
    | false => rfl
    | true => exact ih (v0 ++ [v])

/-- A single operation other than `switchStack` keeps a heap-backed
container heap-backed. -/
theorem step_is_heap {N : Nat} {T : Type} (s : SwitchVec N T) (op : Op T)
    (hop : op ≠ Op.switchStack) (h : s.is_heap = true) :
    (s.step op).is_heap = true := by
  obtain ⟨inner⟩ := s
  cases inner with
  | stack a => simp [SwitchVec.is_heap] at h
  | heap v =>
    cases op with
    | push value a1 a2 =>
      simp only [SwitchVec.step, push_heap_cases]
      cases a2 with
      | false => rfl
      | true => rfl
    | pop =>
      simp only [SwitchVec.step, SwitchVec.pop]
      split
      · rfl
      · rfl
    | insert i value a1 a2 =>
      cases a2 with
      | false =>
        simp [SwitchVec.step, SwitchVec.insert, SwitchVec.reserve, SwitchVec.is_heap]
      | true =>
        by_cases hi : i ≤ v.length
        · simp [SwitchVec.step, SwitchVec.insert, SwitchVec.reserve, hi,
            SwitchVec.is_heap]
        · simp [SwitchVec.step, SwitchVec.insert, SwitchVec.reserve, hi,
            SwitchVec.is_heap]
    | remove i =>
      simp only [SwitchVec.step, SwitchVec.remove]
      split
      · rfl
      · rfl
    | swapRemove i =>
      simp only [SwitchVec.step, SwitchVec.swap_remove]
      split
      · rfl
      · split
        · rfl
        · rfl
    | reserve n a1 a2 => rfl
    | switchHeap a1 => rfl
    | switchStack => exact absurd rfl hop
    | clear => rfl
    | extend l => exact extend_is_heap l v

/-- Every `switchStack`-free operation sequence keeps a heap-backed
container heap-backed. -/
theorem foldl_step_is_heap {N : Nat} {T : Type} (ops : List (Op T)) :
    ∀ s : SwitchVec N T, Op.switchStack ∉ ops → s.is_heap = true →
      (ops.foldl SwitchVec.step s).is_heap = true := by
  induction ops with
  | nil => intro s _ h; exact h
  | cons op rest ih =>
    intro s hmem h
    have hop : op ≠ Op.switchStack := by
      intro he
      exact hmem (he ▸ List.mem_cons_self op rest)
    have hrest : Op.switchStack ∉ rest := fun hm => hmem (List.mem_cons_of_mem _ hm)
    exact ih _ hrest (step_is_heap s op hop h)

/-- C8: for every heap-backed `SwitchVec` and every sequence of API
operations not containing the explicit `switch_stack` call, the
container stays heap-backed; and `pop`, `remove`, and `swap_remove`
never change the value of `is_heap()` on any container. -/
theorem is_heap_never_cleared (N : Nat) (T : Type) (s : SwitchVec N T)
    (ops : List (Op T)) (hops : Op.switchStack ∉ ops) (h : s.is_heap = true) :
    (ops.foldl SwitchVec.step s).is_heap = true ∧
    (∀ t : SwitchVec N T, ∀ i : Nat,
      (t.pop).2.is_heap = t.is_heap ∧
      (t.remove i).2.is_heap = t.is_heap ∧
      (t.swap_remove i).2.is_heap = t.is_heap) := by
  refine ⟨foldl_step_is_heap ops s hops h, ?_⟩
  intro t i
  obtain ⟨inner⟩ := t
  cases inner with
  | stack a =>
    refine ⟨rfl, ?_, ?_⟩
    · simp only [SwitchVec.remove]
      split
      · rfl
      · rfl
    · simp only [SwitchVec.swap_remove]
      split
      · rfl
      · rfl
  | heap v =>
    refine ⟨?_, ?_, ?_⟩
    · simp only [SwitchVec.pop]
      split
      · rfl
      · rfl
    · simp only [SwitchVec.remove]
      split
      · rfl
      · rfl
    · simp only [SwitchVec.swap_remove]
      split
      · rfl
      · split
        · rfl
        · rfl

/-- C8 witness: a heap-backed `SwitchVec<2, Nat>` holding `[1]` under a
mixed `switchStack`-free sequence. -/
theorem is_heap_never_cleared_witness :
    (Op.switchStack ∉ ([Op.push 5 true true, Op.pop, Op.remove 0,
        Op.swapRemove 0, Op.reserve 3 true false, Op.switchHeap true, Op.clear,
        Op.insert 0 7 true true, Op.extend [(8, true, true)]] : List (Op Nat))) ∧
    (⟨Inner.heap [1]⟩ : SwitchVec 2 Nat).is_heap = true ∧
    ((([Op.push 5 true true, Op.pop, Op.remove 0,
        Op.swapRemove 0, Op.reserve 3 true false, Op.switchHeap true, Op.clear,
        Op.insert 0 7 true true, Op.extend [(8, true, true)]] : List (Op Nat)).foldl
          SwitchVec.step (⟨Inner.heap [1]⟩ : SwitchVec 2 Nat)).is_heap = true ∧
      (∀ t : SwitchVec 2 Nat, ∀ i : Nat,
        (t.pop).2.is_heap = t.is_heap ∧
        (t.remove i).2.is_heap = t.is_heap ∧
        (t.swap_remove i).2.is_heap = t.is_heap)) :=
  ⟨by decide, by decide,
    is_heap_never_cleared 2 Nat ⟨Inner.heap [1]⟩
      [Op.push 5 true true, Op.pop, Op.remove 0,
        Op.swapRemove 0, Op.reserve 3 true false, Op.switchHeap true, Op.clear,
        Op.insert 0 7 true true, Op.extend [(8, true, true)]] (by decide) (by decide)⟩

end Nyarray
